import Mathlib

/-!
Verification of the `InsertStatement` query builder (`src/query/insert.rs`) of the
sea-query SQL statement compiler.

The builder itself is embedded directly from the source: `InsertStatement` with its
`table`, `columns` and `values` fields, and the operations `new`, `into_table`,
`into_table_dyn`, `columns` and `columns_dyn` (identifiers are embedded as their
rendered names, plain strings), `values`, `values_panic` and `json`.  Rust panics
are modelled as `Except.error` carrying the panic message; the fallible `values`
returns `Except` exactly as the source returns `Result`.

The rendering backend (`QueryBuilder::prepare_insert_statement`, `SqlWriter`,
`inject_parameters`, the JSON-to-value conversion) is code of the repository that
is not part of the excerpted sources; those definitions are modelled from the
specification, with the doc-tests of `insert.rs` fixing the exact concrete output
strings.  Rendering is modelled as a stream of tokens — literal text fragments and
placeholder tokens — emitted in lockstep with the collected parameter values; the
final SQL text is the in-order concatenation of the rendered tokens.
-/

/-! ## Byte-lexicographic order on strings

Rust's `String` ordering (used by `keys.sort()` in `InsertStatement::json`) is
byte-lexicographic; on UTF-8 data this coincides with lexicographic order on
unicode scalar values, which is what `lexLe` computes on `String.data`. -/

def lexLe : List Char → List Char → Bool
  | [], _ => true
  | _ :: _, [] => false
  | a :: as, b :: bs => if a < b then true else if a = b then lexLe as bs else false

def strLe (a b : String) : Bool := lexLe a.data b.data

theorem lexLe_total (a b : List Char) : lexLe a b = true ∨ lexLe b a = true := by
  induction a generalizing b with
  | nil => left; rfl
  | cons x xs ih =>
      cases b with
      | nil => right; rfl
      | cons y ys =>
          rcases lt_trichotomy x y with h | h | h
          · left; simp [lexLe, h]
          · subst h
            rcases ih ys with h2 | h2
            · left; simp [lexLe, h2]
            · right; simp [lexLe, h2]
          · right; simp [lexLe, h]

theorem lexLe_antisymm (a b : List Char) (h1 : lexLe a b = true) (h2 : lexLe b a = true) :
    a = b := by
  induction a generalizing b with
  | nil => cases b with
    | nil => rfl
    | cons y ys => simp [lexLe] at h2
  | cons x xs ih =>
      cases b with
      | nil => simp [lexLe] at h1
      | cons y ys =>
          rcases lt_trichotomy x y with h | h | h
          · exfalso
            have hne : y ≠ x := ne_of_gt h
            simp [lexLe, not_lt_of_gt h, hne] at h2
          · subst h
            simp only [lexLe, lt_irrefl, if_false, if_pos rfl, if_neg (lt_irrefl x)] at h1 h2
            rw [ih ys h1 h2]
          · exfalso
            have hne : x ≠ y := ne_of_gt h
            simp [lexLe, not_lt_of_gt h, hne] at h1

theorem lexLe_trans (a b c : List Char) (h1 : lexLe a b = true) (h2 : lexLe b c = true) :
    lexLe a c = true := by
  induction a generalizing b c with
  | nil => rfl
  | cons x xs ih =>
      cases b with
      | nil => simp [lexLe] at h1
      | cons y ys =>
          cases c with
          | nil => simp [lexLe] at h2
          | cons z zs =>
              rcases lt_trichotomy x y with hxy | hxy | hxy
              · rcases lt_trichotomy y z with hyz | hyz | hyz
                · simp [lexLe, lt_trans hxy hyz]
                · subst hyz; simp [lexLe, hxy]
                · exfalso
                  have hne : y ≠ z := ne_of_gt hyz
                  simp [lexLe, not_lt_of_gt hyz, hne] at h2
              · subst hxy
                rcases lt_trichotomy x z with hyz | hyz | hyz
                · simp [lexLe, hyz]
                · subst hyz
                  simp only [lexLe, if_neg (lt_irrefl x), if_pos rfl] at h1 h2 ⊢
                  exact ih ys zs h1 h2
                · exfalso
                  have hne : x ≠ z := ne_of_gt hyz
                  simp [lexLe, not_lt_of_gt hyz, hne] at h2
              · exfalso
                have hne : x ≠ y := ne_of_gt hxy
                simp [lexLe, not_lt_of_gt hxy, hne] at h1

instance : IsTotal String (fun a b => strLe a b = true) :=
  ⟨fun a b => lexLe_total a.data b.data⟩

instance : IsTrans String (fun a b => strLe a b = true) :=
  ⟨fun a b c h1 h2 => lexLe_trans a.data b.data c.data h1 h2⟩

instance : IsAntisymm String (fun a b => strLe a b = true) :=
  ⟨fun a b h1 h2 => congrArg String.mk (lexLe_antisymm a.data b.data h1 h2)⟩

/-- `Vec::sort` on a vector of strings: a sorted permutation of the input
(insertion sort, with the byte-lexicographic order `strLe`). -/
def sortStrings (l : List String) : List String :=
  List.insertionSort (fun a b => strLe a b = true) l

/-! ## JSON values and the SQL value model -/

/-- `serde_json::Value`.  An object is a finite map from strings to values,
embedded as an association list; a well-formed `serde_json::Map` has no
duplicate keys.  JSON numbers are embedded as integers (floating-point
payloads are out of scope of the verified claims). -/
inductive JsonValue where
  | null : JsonValue
  | bool (b : Bool) : JsonValue
  | num (n : Int) : JsonValue
  | str (s : String) : JsonValue
  | arr (xs : List JsonValue) : JsonValue
  | obj (fields : List (String × JsonValue)) : JsonValue

/-- `serde_json::Map::get`: look a key up in an object's field list. -/
def lookupField (fields : List (String × JsonValue)) (k : String) : Option JsonValue :=
  match fields with
  | [] => none
  | (k', v) :: rest => if k' = k then some v else lookupField rest k

/-- The `Value` variants exercised by the insert builder: `Null`, `Bool`,
the integer family (collapsed to one mathematical integer variant), `Bytes`
(the repository converts strings into `Value::Bytes`, as its doc-tests show),
and the structured `Json` variant.  Floating-point variants are out of scope. -/
inductive Value where
  | Null : Value
  | Bool (b : Bool) : Value
  | Int (i : Int) : Value
  | Bytes (s : String) : Value
  | Json (j : JsonValue) : Value

/-- Modelled from the spec: `json_value_to_sea_value` (the JSON-to-`Value`
coercion of the value model, not among the excerpted sources).  Per §4.1,
`null` maps to `Null`, object/array types route to the `Json` variant
verbatim, numbers keep their numeric value; strings become byte-sequence
values, which is how the repository's doc-tests render string data. -/
def json_value_to_sea_value : JsonValue → Value
  | .null => .Null
  | .bool b => .Bool b
  | .num n => .Int n
  | .str s => .Bytes s
  | .arr xs => .Json (.arr xs)
  | .obj fields => .Json (.obj fields)

/-- The row-building loop of `InsertStatement::json`: for each column in
order, `object.get(column)` converted to a value, or `Null` when the key is
absent. -/
def jsonRow (fields : List (String × JsonValue)) (cols : List String) : List Value :=
  cols.map (fun col =>
    match lookupField fields col with
    | some v => json_value_to_sea_value v
    | none => Value.Null)

/-! ## The insert statement builder (`src/query/insert.rs`) -/

/-- `InsertStatement { table, columns, values }`.  Identifiers (`Rc<dyn Iden>`)
are embedded as their rendered unquoted names; the table reference
(`Option<Box<TableRef>>`, always `TableRef::Table`) as an optional name. -/
structure InsertStatement where
  table : Option String
  columns : List String
  values : List (List Value)

namespace InsertStatement

/-- `InsertStatement::new`. -/
def new : InsertStatement :=
  { table := none, columns := [], values := [] }

/-- `InsertStatement::into_table_dyn`: sets the target table. -/
def into_table_dyn (s : InsertStatement) (t : String) : InsertStatement :=
  { s with table := some t }

/-- `InsertStatement::into_table`: wraps the marker in an `Rc` and delegates to
`into_table_dyn`; with identifiers embedded as names the wrap is the identity. -/
def into_table (s : InsertStatement) (t : String) : InsertStatement :=
  s.into_table_dyn t

/-- `InsertStatement::columns_dyn`: assigns the column list. -/
def columns_dyn (s : InsertStatement) (cs : List String) : InsertStatement :=
  { s with columns := cs }

/-- `InsertStatement::columns`: converts each column marker into a dynamic
identifier and delegates to `columns_dyn`; with identifiers embedded as names
the conversion is the identity map. -/
def columns' (s : InsertStatement) (cs : List String) : InsertStatement :=
  s.columns_dyn (cs.map id)

/-- `InsertStatement::values`: rejects a row whose length differs from the
column count, otherwise pushes the row. -/
def values' (s : InsertStatement) (vs : List Value) : Except String InsertStatement :=
  if s.columns.length ≠ vs.length then
    .error ("columns and values length mismatch: " ++ toString s.columns.length
      ++ " != " ++ toString vs.length)
  else
    .ok { s with values := s.values ++ [vs] }

/-- `InsertStatement::values_panic`: `self.values(values).unwrap()`.  `unwrap`
returns the success value and panics on the error; with panics modelled as
`Except.error` this is exactly the result of `values`. -/
def values_panic (s : InsertStatement) (vs : List Value) : Except String InsertStatement :=
  s.values' vs

/-- `InsertStatement::json`: panics on a non-object argument; when the column
list is empty, derives it from the object's sorted keys; then appends one row
binding, for each column in order, the converted value of the matching key or
`Null` when the key is absent. -/
def json (s : InsertStatement) (object : JsonValue) : Except String InsertStatement :=
  match object with
  | .obj fields =>
      let s1 := if s.columns.isEmpty then
          { s with columns := sortStrings (fields.map Prod.fst) }
        else s
      .ok { s1 with values := s1.values ++ [jsonRow fields s1.columns] }
  | _ => .error "object must be JsonValue::Object"

end InsertStatement

/-! ## Dialect backends and rendering

Modelled from the spec (§4.4–§4.5) and pinned to the concrete output strings of
the doc-tests in `src/query/insert.rs`: the backend walks the statement,
emitting text fragments and, for every literal value, a placeholder token while
handing the value to the collector; MySQL and SQLite quote identifiers with
backticks and use `?` placeholders, PostgreSQL quotes with double quotes and
uses `$N` placeholders numbered from 1. -/

/-- The supported dialect backends (`MysqlQueryBuilder`, `PostgresQueryBuilder`,
`SqliteQueryBuilder`). -/
inductive QueryBuilder where
  | MysqlQueryBuilder : QueryBuilder
  | PostgresQueryBuilder : QueryBuilder
  | SqliteQueryBuilder : QueryBuilder
deriving DecidableEq

/-- The identifier quote character of a dialect: backtick for MySQL and SQLite,
double quote for PostgreSQL. -/
def quoteChar : QueryBuilder → Char
  | .PostgresQueryBuilder => Char.ofNat 34
  | _ => Char.ofNat 96

/-- Escape an identifier by doubling every embedded quote character. -/
def escapeIdent (q : Char) (name : String) : String :=
  String.mk (name.data.foldr (fun c acc => if c = q then q :: q :: acc else c :: acc) [])

/-- Wrap an identifier in the dialect's quote character, escaping embedded quotes. -/
def quoteIdent (qb : QueryBuilder) (name : String) : String :=
  String.mk [quoteChar qb] ++ escapeIdent (quoteChar qb) name ++ String.mk [quoteChar qb]

/-- One element of the rendering stream: a literal text fragment, or the
placeholder standing for the `n`-th collected parameter (0-based emission index). -/
inductive SqlToken where
  | text (s : String) : SqlToken
  | param (n : Nat) : SqlToken

/-- The dialect's placeholder spelling for the `n`-th (0-based) parameter:
`?` for MySQL and SQLite, `$1, $2, …` for PostgreSQL. -/
def placeholderText (qb : QueryBuilder) (n : Nat) : String :=
  match qb with
  | .PostgresQueryBuilder => "$" ++ toString (n + 1)
  | _ => "?"

def renderToken (qb : QueryBuilder) : SqlToken → String
  | .text s => s
  | .param n => placeholderText qb n

/-- Concatenate the rendered tokens in emission order: the final SQL text. -/
def renderTokens (qb : QueryBuilder) : List SqlToken → String
  | [] => ""
  | t :: ts => renderToken qb t ++ renderTokens qb ts

/-- `n` placeholder tokens with consecutive indices starting at `start`,
separated by `, `. -/
def paramsSep (start : Nat) : Nat → List SqlToken
  | 0 => []
  | n + 1 =>
      SqlToken.param start ::
        ((match n with | 0 => [] | _ + 1 => [SqlToken.text ", "]) ++ paramsSep (start + 1) n)

/-- The token stream of one value row of length `n`: `(`, the placeholders, `)`. -/
def rowTokens (start n : Nat) : List SqlToken :=
  SqlToken.text "(" :: (paramsSep start n ++ [SqlToken.text ")"])

/-- The token streams of all value rows, separated by `, `, with placeholder
indices numbered consecutively across rows. -/
def rowsTokens : Nat → List (List Value) → List SqlToken
  | _, [] => []
  | start, r :: rs =>
      rowTokens start r.length ++
        ((match rs with | [] => [] | _ :: _ => [SqlToken.text ", "]) ++
          rowsTokens (start + r.length) rs)

/-- The quoted column names joined by `, `. -/
def joinCols (qb : QueryBuilder) : List String → String
  | [] => ""
  | c :: cs =>
      quoteIdent qb c ++ ((match cs with | [] => "" | _ :: _ => ", ") ++ joinCols qb cs)

/-- Modelled from the spec: `QueryBuilder::prepare_insert_statement` (dialect
backend rendering, not among the excerpted sources).  Emits
`INSERT INTO <table> (<columns>) VALUES (<row>), (<row>), …` with one
placeholder per value, and collects the statement's values row by row, left to
right — exactly the strings the doc-tests of `insert.rs` assert.  A missing
table renders as an empty name (not exercised by the claims). -/
def prepare_insert_statement (qb : QueryBuilder) (s : InsertStatement) :
    List SqlToken × List Value :=
  (SqlToken.text "INSERT INTO " ::
    SqlToken.text (quoteIdent qb (match s.table with | some t => t | none => "")) ::
    SqlToken.text " (" ::
    SqlToken.text (joinCols qb s.columns) ::
    SqlToken.text ") VALUES " ::
    rowsTokens 0 s.values,
   s.values.flatten)

/-- `InsertStatement::build_collect`: renders the SQL text and streams every
collected value, in emission order, to the caller-supplied collector.  The
mutable Rust collector is embedded as explicit state passing; the final
collector state is returned alongside the text. -/
def InsertStatement.build_collect {σ : Type} (qb : QueryBuilder) (s : InsertStatement)
    (collector : σ → Value → σ) (st : σ) : String × σ :=
  let r := prepare_insert_statement qb s
  (renderTokens qb r.1, r.2.foldl collector st)

/-- `InsertStatement::build_collect_any`: the runtime-dispatched variant of
`build_collect`; the dialect is already a runtime value here, so the body is
the same. -/
def InsertStatement.build_collect_any {σ : Type} (qb : QueryBuilder) (s : InsertStatement)
    (collector : σ → Value → σ) (st : σ) : String × σ :=
  let r := prepare_insert_statement qb s
  (renderTokens qb r.1, r.2.foldl collector st)

/-- `InsertStatement::build`: calls `build_collect` with a collector that pushes
each received value onto an initially empty vector, and returns the text with
the collected vector. -/
def InsertStatement.build (qb : QueryBuilder) (s : InsertStatement) : String × List Value :=
  let r := s.build_collect qb (fun params v => params ++ [v]) ([] : List Value)
  (r.1, r.2)

/-- `InsertStatement::build_any`: same as `build`, through `build_collect_any`. -/
def InsertStatement.build_any (qb : QueryBuilder) (s : InsertStatement) : String × List Value :=
  let r := s.build_collect_any qb (fun params v => params ++ [v]) ([] : List Value)
  (r.1, r.2)

/-! ## Literal display formatting and the value injector

Modelled from the spec (§4.5, §2 "Value Injector"): splice the collected
parameters back into the rendered text as display literals, consuming the
parameters in exactly the order the collector received them. -/

/-- The single-quote character used by SQL string literals. -/
def squoteChar : Char := Char.ofNat 39

/-- Double every embedded single quote of a string literal's content. -/
def escape_string (s : String) : String :=
  String.mk (s.data.foldr
    (fun c acc => if c = squoteChar then squoteChar :: squoteChar :: acc else c :: acc) [])

mutual

/-- Serialize a JSON value back to text (used only to display `Value.Json`
as a literal). -/
def jsonSerialize : JsonValue → String
  | .null => "null"
  | .bool b => if b then "true" else "false"
  | .num n => toString n
  | .str s => "\"" ++ s ++ "\""
  | .arr xs => "[" ++ jsonSerializeList xs ++ "]"
  | .obj fields => "\x7b" ++ jsonSerializeFields fields ++ "\x7d"

def jsonSerializeList : List JsonValue → String
  | [] => ""
  | x :: xs =>
      jsonSerialize x ++ ((match xs with | [] => "" | _ :: _ => ",") ++ jsonSerializeList xs)

def jsonSerializeFields : List (String × JsonValue) → String
  | [] => ""
  | (k, v) :: fs =>
      "\"" ++ k ++ "\":" ++ jsonSerialize v ++
        ((match fs with | [] => "" | _ :: _ => ",") ++ jsonSerializeFields fs)

end

/-- Modelled from the spec: the dialect-correct display literal of a value
(formatting used by the injector only, never by the collector path).  Numbers
print bare, `NULL`/`TRUE`/`FALSE` as keywords, strings and JSON quoted with
single quotes, embedded quotes doubled — matching the literals asserted by the
doc-tests of `insert.rs`. -/
def literalOf : Value → String
  | .Null => "NULL"
  | .Bool b => if b then "TRUE" else "FALSE"
  | .Int i => toString i
  | .Bytes s => String.mk [squoteChar] ++ escape_string s ++ String.mk [squoteChar]
  | .Json j => String.mk [squoteChar] ++ escape_string (jsonSerialize j) ++ String.mk [squoteChar]

/-- The `?` placeholder character of MySQL and SQLite. -/
def qmark : Char := '?'

/-- The `$` sigil of PostgreSQL placeholders. -/
def dollar : Char := '$'

/-- Splice values over `?` placeholders: each `?` consumes the next value and
is replaced by its display literal; spliced literal text is not rescanned. -/
def injectQ : List Value → List Char → List Char
  | _, [] => []
  | vals, c :: rest =>
      if c = qmark then
        match vals with
        | v :: vs => (literalOf v).data ++ injectQ vs rest
        | [] => c :: injectQ [] rest
      else c :: injectQ vals rest

/-- Splice values over `$N` placeholders: each `$` followed by at least one
digit consumes the next value (parameters are consumed in collection order,
per the spec) and is replaced, together with the whole digit run, by the
value's display literal.  The Boolean flag marks digits still to be skipped. -/
def injectD : List Value → Bool → List Char → List Char
  | _, _, [] => []
  | vals, skip, c :: rest =>
      if skip && c.isDigit then injectD vals true rest
      else if c = dollar && (match rest with | d :: _ => d.isDigit | [] => false) then
        match vals with
        | v :: vs => (literalOf v).data ++ injectD vs true rest
        | [] => c :: injectD [] false rest
      else c :: injectD vals false rest

/-- Modelled from the spec: `inject_parameters` (the Value Injector, not among
the excerpted sources).  Replaces the dialect's placeholders in the rendered
text by the display literals of the collected parameters, in collection order. -/
def inject_parameters (qb : QueryBuilder) (sql : String) (values : List Value) : String :=
  match qb with
  | .PostgresQueryBuilder => String.mk (injectD values false sql.data)
  | _ => String.mk (injectQ values sql.data)

/-- `InsertStatement::to_string`: builds via `build_any` and immediately
re-injects the collected parameters into the text for display. -/
def InsertStatement.to_string (qb : QueryBuilder) (s : InsertStatement) : String :=
  let r := s.build_any qb
  inject_parameters qb r.1 r.2

/-! ## Builder call sequences

The fluent mutate-and-return API: a statement is built by a sequence of
builder calls starting from `InsertStatement::new`.  A panic (`values_panic`
on a mismatched row, `json` on a non-object) aborts the program, so no
statement results from such a sequence; a caller may observe and discard the
recoverable error of `values`, leaving the statement unchanged. -/

inductive BuilderOp where
  | intoTableOp (t : String) : BuilderOp
  | columnsOp (cs : List String) : BuilderOp
  | valuesOp (row : List Value) : BuilderOp
  | valuesPanicOp (row : List Value) : BuilderOp
  | jsonOp (j : JsonValue) : BuilderOp

def applyOp (s : InsertStatement) : BuilderOp → Option InsertStatement
  | .intoTableOp t => some (s.into_table t)
  | .columnsOp cs => some (s.columns_dyn cs)
  | .valuesOp row => some (match s.values' row with | .ok s' => s' | .error _ => s)
  | .valuesPanicOp row => (s.values_panic row).toOption
  | .jsonOp j => (s.json j).toOption

def runOpsFrom (s : InsertStatement) : List BuilderOp → Option InsertStatement
  | [] => some s
  | op :: ops =>
      match applyOp s op with
      | some s' => runOpsFrom s' ops
      | none => none

/-- The statement built by a sequence of builder calls on a fresh statement
(`none` when the sequence panics). -/
def runOps (ops : List BuilderOp) : Option InsertStatement :=
  runOpsFrom InsertStatement.new ops

/-- The arity invariant: every stored row is as long as the declared column list. -/
def arityInv (s : InsertStatement) : Prop :=
  ∀ r ∈ s.values, r.length = s.columns.length

/-! ## Helper lemmas -/

theorem foldl_push_eq_append (l acc : List Value) :
    List.foldl (fun ps v => ps ++ [v]) acc l = acc ++ l := by
  induction l generalizing acc with
  | nil => simp
  | cons v vs ih => simp [List.foldl, ih]

theorem except_toOption_some {α : Type} (e : Except String α) (x : α) :
    e.toOption = some x ↔ e = .ok x := by
  cases e <;> simp [Except.toOption]

theorem values'_ok_iff (s : InsertStatement) (vs : List Value) (s' : InsertStatement) :
    s.values' vs = .ok s' ↔
      s.columns.length = vs.length ∧ s' = { s with values := s.values ++ [vs] } := by
  unfold InsertStatement.values'
  by_cases h : s.columns.length ≠ vs.length
  · simp [h]
  · simp only [h, if_false]
    constructor
    · intro he
      exact ⟨by omega, (Except.ok.injEq _ _ ▸ he).symm ▸ rfl⟩
    · rintro ⟨-, rfl⟩; rfl

theorem values'_error_iff (s : InsertStatement) (vs : List Value) :
    (∃ e, s.values' vs = .error e) ↔ s.columns.length ≠ vs.length := by
  unfold InsertStatement.values'
  by_cases h : s.columns.length ≠ vs.length <;> simp [h]

theorem json_obj_eq (s : InsertStatement) (fields : List (String × JsonValue)) :
    s.json (.obj fields) =
      .ok (let s1 := if s.columns.isEmpty then
              { s with columns := sortStrings (fields.map Prod.fst) }
            else s
           { s1 with values := s1.values ++ [jsonRow fields s1.columns] }) := rfl

theorem json_not_obj (s : InsertStatement) (j : JsonValue) (h : ∀ fields, j ≠ .obj fields) :
    s.json j = .error "object must be JsonValue::Object" := by
  cases j with
  | obj fields => exact absurd rfl (h fields)
  | null => rfl
  | bool b => rfl
  | num n => rfl
  | str s => rfl
  | arr xs => rfl

theorem json_ok_obj (s : InsertStatement) (j : JsonValue) (s' : InsertStatement)
    (hok : s.json j = .ok s') : ∃ fields, j = .obj fields := by
  cases j with
  | obj fields => exact ⟨fields, rfl⟩
  | null => exact absurd hok (by simp [InsertStatement.json])
  | bool b => exact absurd hok (by simp [InsertStatement.json])
  | num n => exact absurd hok (by simp [InsertStatement.json])
  | str s2 => exact absurd hok (by simp [InsertStatement.json])
  | arr xs => exact absurd hok (by simp [InsertStatement.json])

theorem json_nonempty_columns (t : InsertStatement) (fields2 : List (String × JsonValue))
    (t' : InsertStatement) (hne : t.columns ≠ []) (hok : t.json (.obj fields2) = .ok t') :
    t'.columns = t.columns ∧ t'.values = t.values ++ [jsonRow fields2 t.columns] := by
  rw [json_obj_eq] at hok
  have hempty : t.columns.isEmpty = false := by
    cases hc : t.columns with
    | nil => exact absurd hc hne
    | cons a l => rfl
  simp only [hempty, Bool.false_eq_true, if_false] at hok
  have h3 := (Except.ok.inj hok).symm
  rw [h3]
  exact ⟨rfl, rfl⟩

theorem json_chain_columns_fixed : ∀ (ops : List BuilderOp) (u t : InsertStatement),
    u.columns ≠ [] → (∀ op ∈ ops, ∃ j2, op = BuilderOp.jsonOp j2) →
    runOpsFrom u ops = some t → t.columns = u.columns := by
  intro ops
  induction ops with
  | nil =>
      intro u t _ _ hrun
      exact congrArg InsertStatement.columns (Option.some.inj hrun).symm
  | cons op ops ih =>
      intro u t hne hops hrun
      rcases hops op (List.mem_cons_self op ops) with ⟨j2, rfl⟩
      unfold runOpsFrom at hrun
      cases happ : applyOp u (.jsonOp j2) with
      | none => rw [happ] at hrun; exact absurd hrun (by simp)
      | some u2 =>
          rw [happ] at hrun
          have hok : u.json j2 = .ok u2 := (except_toOption_some _ _).mp happ
          rcases json_ok_obj u j2 u2 hok with ⟨fields2, rfl⟩
          rcases json_nonempty_columns u fields2 u2 hne hok with ⟨hcols, -⟩
          have hne2 : u2.columns ≠ [] := by rw [hcols]; exact hne
          have hrest := ih u2 t hne2 (fun op2 hm => hops op2 (List.mem_cons_of_mem _ hm)) hrun
          rw [hrest, hcols]

theorem sortStrings_sorted (l : List String) :
    List.Sorted (fun a b => strLe a b = true) (sortStrings l) :=
  List.sorted_insertionSort _ l

theorem sortStrings_perm (l : List String) : List.Perm (sortStrings l) l :=
  List.perm_insertionSort _ l

theorem sortStrings_perm_eq (l1 l2 : List String) (h : List.Perm l1 l2) :
    sortStrings l1 = sortStrings l2 :=
  List.eq_of_perm_of_sorted
    ((sortStrings_perm l1).trans (h.trans (sortStrings_perm l2).symm))
    (sortStrings_sorted l1) (sortStrings_sorted l2)

theorem sortStrings_ne_nil (l : List String) (h : l ≠ []) : sortStrings l ≠ [] := by
  intro hc
  exact h (List.Perm.eq_nil (hc ▸ (sortStrings_perm l).symm))

/-- The emission indices of the placeholder tokens of a stream, in order. -/
def paramIndices (toks : List SqlToken) : List Nat :=
  toks.filterMap (fun t => match t with | .param n => some n | .text _ => none)

theorem paramIndices_append (a b : List SqlToken) :
    paramIndices (a ++ b) = paramIndices a ++ paramIndices b :=
  List.filterMap_append a b _

theorem paramIndices_paramsSep (n start : Nat) :
    paramIndices (paramsSep start n) = List.range' start n := by
  induction n generalizing start with
  | zero => rfl
  | succ m ih =>
      have hsep : List.filterMap
          (fun t => match t with | SqlToken.param k => some k | SqlToken.text _ => none)
          (match m with | 0 => ([] : List SqlToken) | _ + 1 => [SqlToken.text ", "]) = [] := by
        cases m <;> rfl
      simp only [paramsSep, paramIndices, List.filterMap_cons, List.filterMap_append,
        hsep, List.nil_append] at ih ⊢
      rw [ih (start + 1)]
      rfl

theorem paramIndices_rowTokens (start n : Nat) :
    paramIndices (rowTokens start n) = List.range' start n := by
  simp [rowTokens, paramIndices, List.filterMap_cons, List.filterMap_append]
  simpa [paramIndices] using paramIndices_paramsSep n start

theorem paramIndices_rowsTokens (rows : List (List Value)) (start : Nat) :
    paramIndices (rowsTokens start rows) = List.range' start (rows.map List.length).sum := by
  induction rows generalizing start with
  | nil => rfl
  | cons r rs ih =>
      simp only [rowsTokens, paramIndices_append]
      rw [paramIndices_rowTokens, ih (start + r.length)]
      cases rs with
      | nil => simp [paramIndices]
      | cons r2 rs2 =>
          simp only [paramIndices, List.filterMap_cons, List.filterMap_nil,
            List.nil_append, List.map_cons, List.sum_cons]
          rw [List.range'_append_1, Nat.add_comm]

theorem prepare_params (qb : QueryBuilder) (s : InsertStatement) :
    (prepare_insert_statement qb s).2 = s.values.flatten := rfl

theorem paramIndices_prepare (qb : QueryBuilder) (s : InsertStatement) :
    paramIndices (prepare_insert_statement qb s).1 = List.range s.values.flatten.length := by
  unfold prepare_insert_statement
  simp only [paramIndices, List.filterMap_cons]
  have h := paramIndices_rowsTokens s.values 0
  simp only [paramIndices] at h
  rw [h, List.length_flatten, List.range_eq_range']

theorem build_eq (qb : QueryBuilder) (s : InsertStatement) :
    s.build qb = (renderTokens qb (prepare_insert_statement qb s).1, s.values.flatten) := by
  unfold InsertStatement.build InsertStatement.build_collect
  simp [foldl_push_eq_append, prepare_params]

theorem build_any_eq_build (qb : QueryBuilder) (s : InsertStatement) :
    s.build_any qb = s.build qb := rfl

theorem mem_escFold (q c : Char) (l : List Char)
    (h : c ∈ l.foldr (fun ch acc => if ch = q then q :: q :: acc else ch :: acc) []) :
    c ∈ l ∨ c = q := by
  induction l with
  | nil => simp at h
  | cons x xs ih =>
      simp only [List.foldr_cons] at h
      by_cases hx : x = q
      · rw [if_pos hx] at h
        rcases List.mem_cons.mp h with h | h
        · right; exact h
        · rcases List.mem_cons.mp h with h | h
          · right; exact h
          · rcases ih h with h2 | h2
            · left; exact List.mem_cons_of_mem x h2
            · right; exact h2
      · rw [if_neg hx] at h
        rcases List.mem_cons.mp h with h | h
        · left; exact h ▸ List.mem_cons_self x xs
        · rcases ih h with h2 | h2
          · left; exact List.mem_cons_of_mem x h2
          · right; exact h2

theorem mem_quoteIdent (qb : QueryBuilder) (name : String) (c : Char)
    (h : c ∈ (quoteIdent qb name).data) : c ∈ name.data ∨ c = quoteChar qb := by
  unfold quoteIdent at h
  rw [String.data_append, String.data_append] at h
  rcases List.mem_append.mp h with h | h
  · rcases List.mem_append.mp h with h | h
    · right; simpa using h
    · exact mem_escFold (quoteChar qb) c name.data h
  · right; simpa using h

theorem mem_joinCols (qb : QueryBuilder) (cols : List String) (c : Char)
    (h : c ∈ (joinCols qb cols).data) :
    (∃ col ∈ cols, c ∈ (quoteIdent qb col).data) ∨ c ∈ (", " : String).data := by
  induction cols with
  | nil => simp [joinCols] at h
  | cons col cols ih =>
      unfold joinCols at h
      rw [String.data_append, String.data_append] at h
      rcases List.mem_append.mp h with h | h
      · left; exact ⟨col, List.mem_cons_self col cols, h⟩
      · rcases List.mem_append.mp h with h | h
        · cases cols with
          | nil => simp at h
          | cons c2 cs2 => right; exact h
        · rcases ih h with ⟨col2, hmem, hc⟩ | h2
          · left; exact ⟨col2, List.mem_cons_of_mem col hmem, hc⟩
          · right; exact h2

theorem text_mem_paramsSep (start n : Nat) (str : String)
    (h : SqlToken.text str ∈ paramsSep start n) : str = ", " := by
  induction n generalizing start with
  | zero => simp [paramsSep] at h
  | succ m ih =>
      unfold paramsSep at h
      rcases List.mem_cons.mp h with h | h
      · exact absurd h (by simp)
      · rcases List.mem_append.mp h with h | h
        · cases m with
          | zero => simp at h
          | succ k => simpa using h
        · exact ih (start + 1) h

theorem text_mem_rowTokens (start n : Nat) (str : String)
    (h : SqlToken.text str ∈ rowTokens start n) : str = "(" ∨ str = ")" ∨ str = ", " := by
  unfold rowTokens at h
  rcases List.mem_cons.mp h with h | h
  · left; simpa using h
  · rcases List.mem_append.mp h with h | h
    · right; right; exact text_mem_paramsSep start n str h
    · right; left; simpa using h

theorem text_mem_rowsTokens (rows : List (List Value)) (start : Nat) (str : String)
    (h : SqlToken.text str ∈ rowsTokens start rows) :
    str = "(" ∨ str = ")" ∨ str = ", " := by
  induction rows generalizing start with
  | nil => simp [rowsTokens] at h
  | cons r rs ih =>
      unfold rowsTokens at h
      rcases List.mem_append.mp h with h | h
      · exact text_mem_rowTokens start r.length str h
      · rcases List.mem_append.mp h with h | h
        · cases rs with
          | nil => simp at h
          | cons r2 rs2 => right; right; simpa using h
        · exact ih (start + r.length) h

theorem quoteChar_ne_qmark (qb : QueryBuilder) : quoteChar qb ≠ qmark := by
  cases qb <;> decide

/-- The name of the rendered table: the stored name, or empty when unset. -/
def renderedTable (s : InsertStatement) : String :=
  match s.table with | some t => t | none => ""

theorem prepare_text_no_qmark (qb : QueryBuilder) (s : InsertStatement)
    (htable : qmark ∉ (renderedTable s).data)
    (hcols : ∀ col ∈ s.columns, qmark ∉ col.data) :
    ∀ str, SqlToken.text str ∈ (prepare_insert_statement qb s).1 → qmark ∉ str.data := by
  intro str hmem
  unfold prepare_insert_statement at hmem
  rcases List.mem_cons.mp hmem with h | hmem
  · intro hc; rw [show str = "INSERT INTO " by simpa using h] at hc
    exact absurd hc (by decide)
  rcases List.mem_cons.mp hmem with h | hmem
  · intro hc
    have hstr : str = quoteIdent qb (renderedTable s) := by
      simpa [renderedTable] using h
    rw [hstr] at hc
    rcases mem_quoteIdent qb (renderedTable s) qmark hc with h2 | h2
    · exact htable h2
    · exact quoteChar_ne_qmark qb h2.symm
  rcases List.mem_cons.mp hmem with h | hmem
  · intro hc; rw [show str = " (" by simpa using h] at hc
    exact absurd hc (by decide)
  rcases List.mem_cons.mp hmem with h | hmem
  · intro hc
    rw [show str = joinCols qb s.columns by simpa using h] at hc
    rcases mem_joinCols qb s.columns qmark hc with ⟨col, hcm, hc2⟩ | h2
    · rcases mem_quoteIdent qb col qmark hc2 with h3 | h3
      · exact hcols col hcm h3
      · exact quoteChar_ne_qmark qb h3.symm
    · exact absurd h2 (by decide)
  rcases List.mem_cons.mp hmem with h | hmem
  · intro hc; rw [show str = ") VALUES " by simpa using h] at hc
    exact absurd hc (by decide)
  · intro hc
    rcases text_mem_rowsTokens s.values 0 str hmem with h | h | h <;> rw [h] at hc <;>
      exact absurd hc (by decide)

theorem count_qmark_renderTokens (qb : QueryBuilder)
    (hqb : qb = .MysqlQueryBuilder ∨ qb = .SqliteQueryBuilder) (toks : List SqlToken)
    (htext : ∀ str, SqlToken.text str ∈ toks → qmark ∉ str.data) :
    (renderTokens qb toks).data.count qmark = (paramIndices toks).length := by
  induction toks with
  | nil => rcases hqb with h | h <;> subst h <;> rfl
  | cons t ts ih =>
      have ihts := ih (fun str hm => htext str (List.mem_cons_of_mem t hm))
      cases t with
      | text str =>
          have h0 : str.data.count qmark = 0 :=
            List.count_eq_zero.mpr (htext str (List.mem_cons_self _ _))
          simp only [renderTokens, renderToken, String.data_append, List.count_append,
            paramIndices, List.filterMap_cons]
          simp only [paramIndices] at ihts
          rw [h0, ihts]
          simp
      | param n =>
          have h1 : (placeholderText qb n).data.count qmark = 1 := by
            rcases hqb with h | h <;> subst h <;> rfl
          simp only [renderTokens, renderToken, String.data_append, List.count_append,
            paramIndices, List.filterMap_cons]
          simp only [paramIndices] at ihts
          rw [h1, ihts]
          simp [Nat.add_comm]

theorem count_qmark_build (qb : QueryBuilder) (s : InsertStatement)
    (hqb : qb = .MysqlQueryBuilder ∨ qb = .SqliteQueryBuilder)
    (htable : qmark ∉ (renderedTable s).data)
    (hcols : ∀ col ∈ s.columns, qmark ∉ col.data) :
    ((s.build qb).1).data.count qmark = ((s.build qb).2).length := by
  rw [build_eq]
  rw [count_qmark_renderTokens qb hqb _ (prepare_text_no_qmark qb s htable hcols)]
  rw [paramIndices_prepare]
  simp

theorem injectQ_no_qmark (cs : List Char) (vals : List Value)
    (hlit : ∀ v ∈ vals, qmark ∉ (literalOf v).data)
    (hcount : cs.count qmark ≤ vals.length) :
    qmark ∉ injectQ vals cs := by
  induction cs generalizing vals with
  | nil => simp [injectQ]
  | cons c rest ih =>
      by_cases hc : c = qmark
      · subst hc
        cases vals with
        | nil => simp [List.count_cons] at hcount
        | cons v vs =>
            simp only [injectQ, if_pos rfl]
            intro hmem
            rcases List.mem_append.mp hmem with h | h
            · exact hlit v (List.mem_cons_self v vs) h
            · have hrest : rest.count qmark ≤ vs.length := by
                simp [List.count_cons] at hcount
                omega
              exact ih vs (fun w hw => hlit w (List.mem_cons_of_mem v hw)) hrest h
      · simp only [injectQ, if_neg hc]
        intro hmem
        rcases List.mem_cons.mp hmem with h | h
        · exact hc h.symm
        · have hrest : rest.count qmark ≤ vals.length := by
            rw [List.count_cons] at hcount
            omega
          exact ih vals hlit hrest h

/-! ## Claims -/

/-- C10: `columns` and `columns_dyn` replace the entire previously declared
column list with the new one rather than appending to it, and leave the target
table and all already-appended value rows unchanged. -/
theorem columns_replace_whole_list (s : InsertStatement) (cs : List String) :
    s.columns_dyn cs = { table := s.table, columns := cs, values := s.values }
    ∧ s.columns' cs = { table := s.table, columns := cs, values := s.values } := by
  constructor
  · rfl
  · simp [InsertStatement.columns', InsertStatement.columns_dyn]

/-- C3: `values` errors exactly when the row's length differs from the current
column count; on error the statement is unchanged (no row stored, columns and
table untouched), and on success exactly the given row is appended after all
previously stored rows. -/
theorem values_arity_check (s : InsertStatement) (row : List Value) :
    ((∃ e, s.values' row = .error e) ↔ s.columns.length ≠ row.length)
    ∧ (∀ s', s.values' row = .ok s' →
        s' = { table := s.table, columns := s.columns, values := s.values ++ [row] })
    ∧ (s.columns.length ≠ row.length → applyOp s (.valuesOp row) = some s) := by
  refine ⟨values'_error_iff s row, ?_, ?_⟩
  · intro s' hok
    exact ((values'_ok_iff s row s').mp hok).2
  · intro hne
    rcases (values'_error_iff s row).mpr hne with ⟨e, he⟩
    simp [applyOp, he]

/-- C3 witness: with one declared column, an empty row is rejected and leaves
the statement unchanged, while a one-value row is appended exactly. -/
theorem values_arity_check_witness :
    (∃ e, (⟨some "t", ["a"], []⟩ : InsertStatement).values' [] = .error e)
    ∧ applyOp ⟨some "t", ["a"], []⟩ (.valuesOp []) = some ⟨some "t", ["a"], []⟩
    ∧ (⟨some "t", ["a"], [[Value.Int 1]]⟩ : InsertStatement)
        = { table := some "t", columns := ["a"], values := [] ++ [[Value.Int 1]] } :=
  ⟨((values_arity_check ⟨some "t", ["a"], []⟩ []).1).mpr (by decide),
   (values_arity_check ⟨some "t", ["a"], []⟩ []).2.2 (by decide),
   (values_arity_check ⟨some "t", ["a"], []⟩ [Value.Int 1]).2.1 _ rfl⟩

/-- C7: `values_panic` panics exactly when the row's length differs from the
current column count, and otherwise produces exactly the statement a
successful `values` call produces. -/
theorem values_panic_behavior (s : InsertStatement) (row : List Value) :
    ((∃ e, s.values_panic row = .error e) ↔ s.columns.length ≠ row.length)
    ∧ (∀ s', s.values_panic row = .ok s' ↔ s.values' row = .ok s') := by
  exact ⟨values'_error_iff s row, fun s' => Iff.rfl⟩

/-- C7 witness: a one-column statement panics on an empty row and appends a
matching row just as `values` does. -/
theorem values_panic_behavior_witness :
    (∃ e, (⟨none, ["a"], []⟩ : InsertStatement).values_panic [] = .error e)
    ∧ ((⟨none, ["a"], []⟩ : InsertStatement).values_panic [Value.Null]
        = .ok ⟨none, ["a"], [[Value.Null]]⟩
      ↔ (⟨none, ["a"], []⟩ : InsertStatement).values' [Value.Null]
        = .ok ⟨none, ["a"], [[Value.Null]]⟩) :=
  ⟨((values_panic_behavior ⟨none, ["a"], []⟩ []).1).mpr (by decide),
   (values_panic_behavior ⟨none, ["a"], []⟩ [Value.Null]).2 _⟩

/-- C8: `json` aborts with a descriptive message on every JSON value that is
not an object and never coerces such input into a row; whenever it returns
normally its argument was an object. -/
theorem json_rejects_non_object (s : InsertStatement) (j : JsonValue) :
    ((∀ fields, j ≠ .obj fields) → s.json j = .error "object must be JsonValue::Object")
    ∧ (∀ s', s.json j = .ok s' → ∃ fields, j = .obj fields) := by
  exact ⟨json_not_obj s j, fun s' hok => json_ok_obj s j s' hok⟩

/-- C8 witness: `json` on the non-object `null` aborts with the panic message. -/
theorem json_rejects_non_object_witness :
    InsertStatement.new.json .null = .error "object must be JsonValue::Object" :=
  (json_rejects_non_object InsertStatement.new .null).1
    (fun _ h => JsonValue.noConfusion h)


/-- C2 counterexample: the claim that the column list derived by the first
`json` call is fixed for all subsequent `json` calls fails when the first
object is empty: the derived list is empty, so the next `json` call derives
again.  `new.json {}` leaves the columns empty; `json {"a": 1}` then sets
them to `["a"]`. -/
theorem json_columns_fixed_counterexample :
    ¬ (∀ (s s' s'' : InsertStatement) (fields : List (String × JsonValue)) (j : JsonValue),
        s.columns = [] → s.json (.obj fields) = .ok s' → s'.json j = .ok s'' →
        s''.columns = s'.columns) := by
  intro h
  have h2 := h InsertStatement.new ⟨none, [], [[]]⟩ ⟨none, ["a"], [[], [Value.Int 1]]⟩
      [] (.obj [("a", .num 1)]) rfl rfl rfl
  exact absurd h2 (by decide)

/-- C2 (amended): if the column list is empty and the first `json` call
receives an object with at least one key, the column list becomes exactly the
object's keys in byte-lexicographically sorted order, independently of the
object's original key order, and is then fixed for all subsequent `json`
calls — every `json` call on any statement whose column list is nonempty
leaves that list unchanged and appends the row binding, for each column in
declared order, the converted value of the matching key, or `Null` when the
key is missing, with keys outside the column list contributing nothing; along
any chain of further `json` calls the column list stays the derived one. -/
theorem json_derives_sorted_columns (s : InsertStatement)
    (fields : List (String × JsonValue)) (s' : InsertStatement)
    (hcols : s.columns = []) (hne : fields ≠ [])
    (hok : s.json (.obj fields) = .ok s') :
    s'.columns = sortStrings (fields.map Prod.fst)
    ∧ List.Sorted (fun a b => strLe a b = true) s'.columns
    ∧ List.Perm s'.columns (fields.map Prod.fst)
    ∧ (∀ fields2, List.Perm fields2 fields → ∀ t t' : InsertStatement, t.columns = [] →
        t.json (.obj fields2) = .ok t' → t'.columns = s'.columns)
    ∧ s'.values = s.values ++ [jsonRow fields s'.columns]
    ∧ (∀ (t t' : InsertStatement) (fields2 : List (String × JsonValue)),
        t.columns ≠ [] → t.json (.obj fields2) = .ok t' →
        t'.columns = t.columns ∧ t'.values = t.values ++ [jsonRow fields2 t.columns])
    ∧ (∀ (ops : List BuilderOp) (t : InsertStatement),
        (∀ op ∈ ops, ∃ j2, op = BuilderOp.jsonOp j2) →
        runOpsFrom s' ops = some t → t.columns = s'.columns) := by
  rw [json_obj_eq] at hok
  simp only [hcols, List.isEmpty_nil, if_true] at hok
  have hs' : s' =
      { table := s.table
        columns := sortStrings (fields.map Prod.fst)
        values := s.values ++ [jsonRow fields (sortStrings (fields.map Prod.fst))] } :=
    (Except.ok.inj hok).symm
  have hcol : s'.columns = sortStrings (fields.map Prod.fst) := by rw [hs']
  have hnonempty : s'.columns ≠ [] := by
    rw [hcol]
    exact sortStrings_ne_nil _ (fun hnil => hne (List.map_eq_nil_iff.mp hnil))
  refine ⟨hcol, ?_, ?_, ?_, ?_, ?_, ?_⟩
  · rw [hcol]; exact sortStrings_sorted _
  · rw [hcol]; exact sortStrings_perm _
  · intro fields2 hperm t t' htcols htok
    rw [json_obj_eq] at htok
    simp only [htcols, List.isEmpty_nil, if_true] at htok
    have ht' := (Except.ok.inj htok).symm
    rw [ht', hcol]
    exact sortStrings_perm_eq _ _ (hperm.map Prod.fst)
  · rw [hs']
  · intro t t' fields2 htne htok
    exact json_nonempty_columns t fields2 t' htne htok
  · intro ops t hops hrun
    exact json_chain_columns_fixed ops s' t hnonempty hops hrun

/-- C2 witness: `.json({"b":1,"a":2})` on a fresh statement derives the
column list `["a", "b"]` — the keys in sorted order, not input order — and a
further chain of `json` calls (here `{"a":3}`) leaves that list unchanged. -/
theorem json_derives_sorted_columns_witness :
    (⟨none, ["a", "b"], [[Value.Int 2, Value.Int 1]]⟩ : InsertStatement).columns
      = sortStrings ([("b", JsonValue.num 1), ("a", JsonValue.num 2)].map Prod.fst)
    ∧ sortStrings ([("b", JsonValue.num 1), ("a", JsonValue.num 2)].map Prod.fst)
      = ["a", "b"]
    ∧ (⟨none, ["a", "b"],
        [[Value.Int 2, Value.Int 1], [Value.Int 3, Value.Null]]⟩ : InsertStatement).columns
      = (⟨none, ["a", "b"], [[Value.Int 2, Value.Int 1]]⟩ : InsertStatement).columns :=
  ⟨(json_derives_sorted_columns InsertStatement.new
      [("b", .num 1), ("a", .num 2)]
      ⟨none, ["a", "b"], [[Value.Int 2, Value.Int 1]]⟩ rfl
      (List.cons_ne_nil _ _) rfl).1,
   by decide,
   (json_derives_sorted_columns InsertStatement.new
      [("b", .num 1), ("a", .num 2)]
      ⟨none, ["a", "b"], [[Value.Int 2, Value.Int 1]]⟩ rfl
      (List.cons_ne_nil _ _) rfl).2.2.2.2.2.2
      [BuilderOp.jsonOp (.obj [("a", .num 3)])]
      ⟨none, ["a", "b"], [[Value.Int 2, Value.Int 1], [Value.Int 3, Value.Null]]⟩
      (fun op hm => ⟨JsonValue.obj [("a", JsonValue.num 3)], List.mem_singleton.mp hm⟩)
      rfl⟩

/-- C1 counterexample: the all-times arity invariant fails for sequences that
change the column list after rows are stored: declare one column, append a
one-value row, then re-declare two columns — the stored row now has length 1
against a column count of 2, yet every call succeeded. -/
theorem insert_arity_all_times_counterexample :
    ¬ (∀ (ops : List BuilderOp) (s : InsertStatement), runOps ops = some s → arityInv s) := by
  intro h
  have h2 := h [.columnsOp ["c"], .valuesOp [Value.Null], .columnsOp ["c", "d"]]
      ⟨none, ["c", "d"], [[Value.Null]]⟩ rfl [Value.Null] (List.mem_singleton.mpr rfl)
  exact absurd h2 (by decide)

/-- C1 (amended): every builder call either leaves the stored rows unchanged
or appends exactly one row whose length equals the column count in effect
immediately after the call — a mismatched row is never stored by the call that
received it — and every call that does not change the column list preserves
the all-times arity invariant.  The unrestricted all-times invariant fails
when `columns`/`columns_dyn` (or a first column-deriving `json` call) changes
the column count after rows were stored. -/
theorem insert_arity_per_append (s : InsertStatement) (op : BuilderOp)
    (s' : InsertStatement) (h : applyOp s op = some s') :
    (s'.values = s.values
      ∨ ∃ r, s'.values = s.values ++ [r] ∧ r.length = s'.columns.length)
    ∧ (s'.columns = s.columns → arityInv s → arityInv s') := by
  have happend : ∀ t t' : InsertStatement, ∀ row, t.values' row = .ok t' →
      (t'.values = t.values ++ [row] ∧ row.length = t'.columns.length
        ∧ t'.columns = t.columns) := by
    intro t t' row hok
    rcases (values'_ok_iff t row t').mp hok with ⟨hlen, ht'⟩
    rw [ht']
    exact ⟨rfl, hlen.symm, rfl⟩
  cases op with
  | intoTableOp t =>
      simp only [applyOp, Option.some.injEq] at h
      rw [← h]
      exact ⟨Or.inl rfl, fun _ hinv => hinv⟩
  | columnsOp cs =>
      simp only [applyOp, Option.some.injEq] at h
      rw [← h]
      refine ⟨Or.inl rfl, fun hc hinv => ?_⟩
      intro r hr
      rw [show (s.columns_dyn cs).columns = s.columns from hc]
      exact hinv r hr
  | valuesOp row =>
      simp only [applyOp] at h
      cases hv : s.values' row with
      | ok t =>
          rw [hv, Option.some.injEq] at h
          rw [← h]
          rcases happend s t row hv with ⟨hval, hlen, hcol⟩
          refine ⟨Or.inr ⟨row, hval, hlen⟩, fun _ hinv r hr => ?_⟩
          rw [hval] at hr
          rcases List.mem_append.mp hr with hr | hr
          · rw [hcol]; exact hinv r hr
          · rw [List.mem_singleton.mp hr]; exact hlen
      | error e =>
          rw [hv, Option.some.injEq] at h
          rw [← h]
          exact ⟨Or.inl rfl, fun _ hinv => hinv⟩
  | valuesPanicOp row =>
      simp only [applyOp] at h
      have hok : s.values_panic row = .ok s' := (except_toOption_some _ _).mp h
      rcases happend s s' row hok with ⟨hval, hlen, hcol⟩
      refine ⟨Or.inr ⟨row, hval, hlen⟩, fun _ hinv r hr => ?_⟩
      rw [hval] at hr
      rcases List.mem_append.mp hr with hr | hr
      · rw [hcol]; exact hinv r hr
      · rw [List.mem_singleton.mp hr]; exact hlen
  | jsonOp j =>
      simp only [applyOp] at h
      have hok : s.json j = .ok s' := (except_toOption_some _ _).mp h
      rcases json_ok_obj s j s' hok with ⟨fields, rfl⟩
      rw [json_obj_eq] at hok
      have hs' := (Except.ok.inj hok).symm
      by_cases hemp : s.columns.isEmpty
      · simp only [hemp, if_true] at hs'
        have hcols' : s'.columns = sortStrings (fields.map Prod.fst) := by rw [hs']
        have hvals' : s'.values =
            s.values ++ [jsonRow fields (sortStrings (fields.map Prod.fst))] := by rw [hs']
        have hlen : (jsonRow fields (sortStrings (fields.map Prod.fst))).length
            = s'.columns.length := by
          rw [hcols']; exact List.length_map _ _
        refine ⟨Or.inr ⟨_, hvals', hlen⟩, fun hc hinv r hr => ?_⟩
        rw [hvals'] at hr
        rcases List.mem_append.mp hr with hr | hr
        · rw [hc]; exact hinv r hr
        · rw [List.mem_singleton.mp hr]; exact hlen
      · simp only [Bool.not_eq_true] at hemp
        simp only [hemp, Bool.false_eq_true, if_false] at hs'
        have hcols' : s'.columns = s.columns := by rw [hs']
        have hvals' : s'.values = s.values ++ [jsonRow fields s.columns] := by rw [hs']
        have hlen : (jsonRow fields s.columns).length = s'.columns.length := by
          rw [hcols']; exact List.length_map _ _
        refine ⟨Or.inr ⟨_, hvals', hlen⟩, fun hc hinv r hr => ?_⟩
        rw [hvals'] at hr
        rcases List.mem_append.mp hr with hr | hr
        · rw [hc]; exact hinv r hr
        · rw [List.mem_singleton.mp hr]; exact hlen

/-- C1 witness: appending a matching one-value row to a one-column statement
appends exactly that row and preserves the arity invariant. -/
theorem insert_arity_per_append_witness :
    arityInv ⟨none, ["a"], [[Value.Int 5]]⟩ :=
  (insert_arity_per_append ⟨none, ["a"], []⟩ (.valuesOp [Value.Int 5])
      ⟨none, ["a"], [[Value.Int 5]]⟩ rfl).2 rfl
    (fun r hr => absurd hr (List.not_mem_nil r))

/-- C4: `build` returns the pair whose text is the string `build_collect`
returns for a collector that appends each received value to an initially empty
vector, and whose parameter vector is that collector's final state — the
emitted values in the order received; `build_any` and `build_collect_any`
coincide with `build` and `build_collect`. -/
theorem build_refines_build_collect (qb : QueryBuilder) (s : InsertStatement) :
    (s.build qb).1 = (s.build_collect qb (fun ps v => ps ++ [v]) ([] : List Value)).1
    ∧ (s.build qb).2 = (s.build_collect qb (fun ps v => ps ++ [v]) ([] : List Value)).2
    ∧ (s.build qb).2 = (prepare_insert_statement qb s).2
    ∧ s.build_any qb = s.build qb
    ∧ (∀ (σ : Type) (collector : σ → Value → σ) (st : σ),
        s.build_collect_any qb collector st = s.build_collect qb collector st) := by
  refine ⟨rfl, rfl, ?_, rfl, fun σ c st => rfl⟩
  show ((prepare_insert_statement qb s).2.foldl (fun ps v => ps ++ [v]) []) =
    (prepare_insert_statement qb s).2
  rw [foldl_push_eq_append]
  exact List.nil_append _

/-- C5: the placeholder tokens of the rendered statement are exactly one per
collected parameter, numbered `0, 1, …` in emission order (so the `k`-th
placeholder in the text corresponds to the `k`-th parameter), and for the `?`
dialects, when no identifier contains a `?` character the number of `?`
characters in the built text equals the length of the parameter vector. -/
theorem placeholder_param_correspondence (qb : QueryBuilder) (s : InsertStatement) :
    paramIndices (prepare_insert_statement qb s).1 = List.range ((s.build qb).2).length
    ∧ (s.build qb).1 = renderTokens qb (prepare_insert_statement qb s).1
    ∧ ((qb = .MysqlQueryBuilder ∨ qb = .SqliteQueryBuilder) →
        qmark ∉ (renderedTable s).data → (∀ col ∈ s.columns, qmark ∉ col.data) →
        ((s.build qb).1).data.count qmark = ((s.build qb).2).length) := by
  refine ⟨?_, ?_, fun hqb htable hcols => count_qmark_build qb s hqb htable hcols⟩
  · rw [build_eq]
    exact paramIndices_prepare qb s
  · rw [build_eq]

/-- The two-row doc-test shape of the spec: columns `(id, name)`, rows
`(1, "a")` and `(2, "b")`. -/
def exStmtTwoRows : InsertStatement :=
  ⟨some "t", ["id", "name"],
    [[Value.Int 1, Value.Bytes "a"], [Value.Int 2, Value.Bytes "b"]]⟩

/-- C5 witness: on the two-row statement rendered for MySQL, the `?` count of
the text equals the number of collected parameters. -/
theorem placeholder_param_correspondence_witness :
    ((exStmtTwoRows.build .MysqlQueryBuilder).1).data.count qmark
      = ((exStmtTwoRows.build .MysqlQueryBuilder).2).length :=
  (placeholder_param_correspondence .MysqlQueryBuilder exStmtTwoRows).2.2
    (Or.inl rfl) (by decide) (by decide)

/-- C6: every successful `values`, `values_panic` or `json` call appends
exactly one row after all previously accumulated rows, and `build` collects
the accumulated rows' values row by row — the parameter vector is the
concatenation of the stored rows. -/
theorem rows_accumulate_and_concat (s : InsertStatement) (row : List Value)
    (qb : QueryBuilder) :
    (∀ s', s.values' row = .ok s' → s'.values = s.values ++ [row])
    ∧ (∀ s', s.values_panic row = .ok s' → s'.values = s.values ++ [row])
    ∧ (∀ (j : JsonValue) (s' : InsertStatement), s.json j = .ok s' →
        ∃ r, s'.values = s.values ++ [r])
    ∧ (s.build qb).2 = s.values.flatten := by
  refine ⟨?_, ?_, ?_, ?_⟩
  · intro s' hok
    rw [((values'_ok_iff s row s').mp hok).2]
  · intro s' hok
    rw [((values'_ok_iff s row s').mp hok).2]
  · intro j s' hok
    rcases json_ok_obj s j s' hok with ⟨fields, rfl⟩
    rw [json_obj_eq] at hok
    have hs' := (Except.ok.inj hok).symm
    by_cases hemp : s.columns.isEmpty
    · simp only [hemp, if_true] at hs'
      exact ⟨jsonRow fields (sortStrings (fields.map Prod.fst)), by rw [hs']⟩
    · simp only [Bool.not_eq_true] at hemp
      simp only [hemp, Bool.false_eq_true, if_false] at hs'
      exact ⟨jsonRow fields s.columns, by rw [hs']⟩
  · rw [build_eq]

/-- C6 witness: inserting rows `(1, "a")` then `(2, "b")` into columns
`(id, name)` yields the parameters `[1, "a", 2, "b"]` in that exact order and
one multi-row `INSERT` with one placeholder pair per row; `values` on the
one-row prefix appends exactly the second row. -/
theorem rows_accumulate_and_concat_witness :
    (exStmtTwoRows.build .MysqlQueryBuilder).2
      = [Value.Int 1, Value.Bytes "a", Value.Int 2, Value.Bytes "b"]
    ∧ (exStmtTwoRows.build .MysqlQueryBuilder).1
      = "INSERT INTO `t` (`id`, `name`) VALUES (?, ?), (?, ?)"
    ∧ exStmtTwoRows.values
      = [[Value.Int 1, Value.Bytes "a"]] ++ [[Value.Int 2, Value.Bytes "b"]] :=
  ⟨(rows_accumulate_and_concat exStmtTwoRows [] .MysqlQueryBuilder).2.2.2.trans rfl,
   by decide,
   (rows_accumulate_and_concat
      ⟨some "t", ["id", "name"], [[Value.Int 1, Value.Bytes "a"]]⟩
      [Value.Int 2, Value.Bytes "b"] .MysqlQueryBuilder).1 exStmtTwoRows rfl⟩

/-- C9: `to_string` equals building the statement to `(text, params)` and then
injecting `params` back into `text` as display literals in collection order;
for the `?` dialects, when neither the identifiers nor the injected literals
contain a `?` character, the resulting display string contains no `?`
placeholder at all. -/
theorem to_string_injects_build (qb : QueryBuilder) (s : InsertStatement) :
    s.to_string qb = inject_parameters qb (s.build qb).1 (s.build qb).2
    ∧ ((qb = .MysqlQueryBuilder ∨ qb = .SqliteQueryBuilder) →
        qmark ∉ (renderedTable s).data → (∀ col ∈ s.columns, qmark ∉ col.data) →
        (∀ v ∈ (s.build qb).2, qmark ∉ (literalOf v).data) →
        qmark ∉ (s.to_string qb).data) := by
  constructor
  · rfl
  · intro hqb htable hcols hlit
    have hcount : ((s.build qb).1).data.count qmark = ((s.build qb).2).length :=
      count_qmark_build qb s hqb htable hcols
    have hinj : qmark ∉ injectQ ((s.build qb).2) ((s.build qb).1).data :=
      injectQ_no_qmark _ _ hlit (le_of_eq hcount)
    rcases hqb with h | h <;> subst h <;> exact hinj

/-- C9 witness: for a one-row integer insert, the MySQL display string is the
placeholder-free literal SQL of the doc-tests, and the PostgreSQL display
string likewise substitutes its `$1` placeholder. -/
theorem to_string_injects_build_witness :
    qmark ∉ (InsertStatement.to_string .MysqlQueryBuilder
        ⟨some "t", ["id"], [[Value.Int 7]]⟩).data
    ∧ InsertStatement.to_string .MysqlQueryBuilder ⟨some "t", ["id"], [[Value.Int 7]]⟩
      = "INSERT INTO `t` (`id`) VALUES (7)"
    ∧ InsertStatement.to_string .PostgresQueryBuilder ⟨some "t", ["id"], [[Value.Int 7]]⟩
      = "INSERT INTO \"t\" (\"id\") VALUES (7)" :=
  ⟨(to_string_injects_build .MysqlQueryBuilder ⟨some "t", ["id"], [[Value.Int 7]]⟩).2
      (Or.inl rfl) (by decide) (by decide) (by decide),
   by decide, by decide⟩
